import Mathlib

/-!
# Verification of the value-log segment reader

A shallow embedding of `src/segment/reader.rs`: the pull-based decoder that
turns a sealed segment file into an ordered sequence of
(key, value, checksum) records, stopping at the metadata footer sentinel.

The underlying buffered file reader is modelled as a `Stream`: the file bytes,
a cursor position, and an optional device fault that turns reads past the end
of the available data into a non-EOF I/O error (with `fault = none`, reading
past the end gives `UnexpectedEof`, matching `std::io::Read::read_exact`).
Bytes are `Nat`s; machine integers (`u16`, `u32`) are `Nat`s, which the
big-endian field readers only ever build from fixed numbers of bytes.
-/

namespace ValueLog

/-- The kind of a low-level I/O failure, mirroring `std::io::ErrorKind` as far
as the reader inspects it: `unexpectedEof` versus everything else (`other`,
tagged by an opaque code). -/
inductive IoError where
  | unexpectedEof : IoError
  | other : Nat → IoError
deriving DecidableEq, Repr

/-- Model of the reader's `BufReader<File>`: file contents, cursor position,
and an optional device-fault code hit when reading past the end of `data`. -/
structure Stream where
  data : List Nat
  pos : Nat
  fault : Option Nat
deriving DecidableEq, Repr

/-- Model of `std::io::Read::read_exact` on a `Stream`: succeeds returning the
next `n` bytes and the advanced stream, or fails with `UnexpectedEof` (clean
end of data) or a device fault, leaving the stream unchanged. -/
def readExact (s : Stream) (n : Nat) : Except IoError (List Nat × Stream) :=
  if s.pos + n ≤ s.data.length then
    .ok ((s.data.drop s.pos).take n, { s with pos := s.pos + n })
  else
    match s.fault with
    | some code => .error (.other code)
    | none => .error .unexpectedEof

/-- Big-endian value of a byte list (most significant byte first). -/
def beVal (bs : List Nat) : Nat :=
  bs.foldl (fun acc b => acc * 256 + b) 0

/-- Model of `byteorder::ReadBytesExt::read_u16::<BigEndian>`. -/
def readU16be (s : Stream) : Except IoError (Nat × Stream) :=
  (readExact s 2).map (fun p => (beVal p.1, p.2))

/-- Model of `byteorder::ReadBytesExt::read_u32::<BigEndian>`. -/
def readU32be (s : Stream) : Except IoError (Nat × Stream) :=
  (readExact s 4).map (fun p => (beVal p.1, p.2))

/-- Modelled from the spec: `BLOB_HEADER_MAGIC` (the spec's RECORD_MAGIC) is
defined in `segment/writer.rs`, which is not among the provided sources. The
spec fixes only that it is a fixed-size bit pattern, distinct from the footer
magic and of equal length; we use a concrete 4-byte stand-in. -/
def BLOB_HEADER_MAGIC : List Nat := [118, 108, 103, 98]

/-- Modelled from the spec: `METADATA_HEADER_MAGIC` (the spec's FOOTER_MAGIC)
is defined in `segment/meta.rs`, which is not among the provided sources. The
spec fixes only that it is a fixed-size bit pattern, distinct from the record
magic and of equal length; we use a concrete 4-byte stand-in. -/
def METADATA_HEADER_MAGIC : List Nat := [118, 108, 103, 109]

/-- Mirror of `crate::serde::DeserializeError` as far as the reader uses it. -/
inductive DeserializeError where
  | invalidHeader : String → DeserializeError
deriving DecidableEq, Repr

/-- Mirror of `crate::Error` as far as the reader uses it: an I/O error
converted via `e.into()`, or a deserialization error. -/
inductive Error where
  | ioErr : IoError → Error
  | deserialize : DeserializeError → Error
deriving DecidableEq, Repr

/-- A decoded record: the `(Arc<[u8]>, Arc<[u8]>, u32)` triple of key bytes,
value bytes, and stored checksum. -/
abbrev Record := List Nat × List Nat × Nat

/-- Mirror of `Reader`: segment id (a `u64`, modelled as `Nat`), the inner
buffered reader, and the termination flag. -/
structure Reader where
  segment_id : Nat
  inner : Stream
  is_terminated : Bool
deriving DecidableEq, Repr

/-- Mirror of `Reader::get_offset`, i.e. `self.inner.stream_position()`
(always successful in this model, so the `io::Result` wrapper is dropped). -/
def Reader.get_offset (r : Reader) : Nat := r.inner.pos

/-- Mirror of `<Reader as Iterator>::next`. Explicit state passing: returns
the produced `Option<crate::Result<...>>` together with the updated reader.
After a failed read the inner stream is left at its pre-read state (the Rust
cursor is unspecified there; no claim depends on it). -/
def Reader.next (r : Reader) : Option (Except Error Record) × Reader :=
  if r.is_terminated then (none, r)
  else
    match readExact r.inner BLOB_HEADER_MAGIC.length with
    | .error e => (some (.error (.ioErr e)), r)
    | .ok (buf, s1) =>
      if buf = METADATA_HEADER_MAGIC then
        (none, { r with inner := s1, is_terminated := true })
      else if buf ≠ BLOB_HEADER_MAGIC then
        (some (.error (.deserialize (.invalidHeader "Blob"))), { r with inner := s1 })
      else
        match readU32be s1 with
        | .error e =>
          if e = .unexpectedEof then (none, { r with inner := s1 })
          else (some (.error (.ioErr e)), { r with inner := s1 })
        | .ok (crc, s2) =>
          match readU16be s2 with
          | .error e =>
            if e = .unexpectedEof then (none, { r with inner := s2 })
            else (some (.error (.ioErr e)), { r with inner := s2 })
          | .ok (key_len, s3) =>
            match readExact s3 key_len with
            | .error e => (some (.error (.ioErr e)), { r with inner := s3 })
            | .ok (key, s4) =>
              match readU32be s4 with
              | .error e =>
                if e = .unexpectedEof then (none, { r with inner := s4 })
                else (some (.error (.ioErr e)), { r with inner := s4 })
              | .ok (val_len, s5) =>
                match readExact s5 val_len with
                | .error e => (some (.error (.ioErr e)), { r with inner := s5 })
                | .ok (val, s6) => (some (.ok (key, val, crc)), { r with inner := s6 })

/-- Drive the reader for at most `fuel` pulls, collecting successfully decoded
records, stopping at the first exhaustion signal or at the first error (the
spec instructs callers to stop pulling after the first error). -/
def run (fuel : Nat) (r : Reader) : List Record × Option Error × Reader :=
  match fuel with
  | 0 => ([], none, r)
  | fuel + 1 =>
    match Reader.next r with
    | (none, r1) => ([], none, r1)
    | (some (.error e), r1) => ([], some e, r1)
    | (some (.ok rec), r1) =>
      let t := run fuel r1
      (rec :: t.1, t.2.1, t.2.2)

/-- Big-endian encoding of a 16-bit value (wire format, spec section 6). -/
def be16 (n : Nat) : List Nat := [n / 256 % 256, n % 256]

/-- Big-endian encoding of a 32-bit value (wire format, spec section 6). -/
def be32 (n : Nat) : List Nat :=
  [n / 16777216 % 256, n / 65536 % 256, n / 256 % 256, n % 256]

/-- One record block per the wire format of spec section 6:
magic, 4-byte checksum, 2-byte key length, key, 4-byte value length, value. -/
def encodeRecord (k v : List Nat) (c : Nat) : List Nat :=
  BLOB_HEADER_MAGIC ++ be32 c ++ be16 k.length ++ k ++ be32 v.length ++ v

/-- Concatenated encoding of a list of records. -/
def encodeRecs (recs : List Record) : List Nat :=
  recs.foldr (fun x acc => encodeRecord x.1 x.2.1 x.2.2 ++ acc) []

/-- A whole segment file: record blocks, footer magic, opaque footer payload. -/
def encodeSegment (recs : List Record) (footer : List Nat) : List Nat :=
  encodeRecs recs ++ METADATA_HEADER_MAGIC ++ footer

/-- Encoded size of one record block:
magic length + 4 (checksum) + 2 (key length) + key + 4 (value length) + value. -/
def blockSize (x : Record) : Nat :=
  BLOB_HEADER_MAGIC.length + 4 + 2 + x.1.length + 4 + x.2.1.length

/-- Total encoded size of a list of record blocks. -/
def sizeRecs (recs : List Record) : Nat := (recs.map blockSize).sum

/-- A fresh reader over the given file contents: cursor at byte 0, not
terminated, fault-free storage. -/
def mkReader (sid : Nat) (data : List Nat) : Reader :=
  ⟨sid, ⟨data, 0, none⟩, false⟩

/-- Field bounds a record must satisfy to be representable on the wire:
key length fits in a `u16`, value length and checksum fit in a `u32`. -/
def WFRecord (x : Record) : Prop :=
  x.1.length ≤ 65535 ∧ x.2.1.length ≤ 4294967295 ∧ x.2.2 ≤ 4294967295

instance (x : Record) : Decidable (WFRecord x) :=
  inferInstanceAs (Decidable (_ ∧ _ ∧ _))

/-- The truncated remains of a record block whose truncation point falls
inside one of the fixed-width fields (checksum, key length, or value length):
the block's leading magic was fully written, and the bytes stop short inside
the named field. -/
def CleanTruncTail (t : List Nat) : Prop :=
  (∃ u, t = BLOB_HEADER_MAGIC ++ u ∧ u.length < 4) ∨
  (∃ c u, c ≤ 4294967295 ∧ t = BLOB_HEADER_MAGIC ++ be32 c ++ u ∧ u.length < 2) ∨
  (∃ c k u, c ≤ 4294967295 ∧ k.length ≤ 65535 ∧
    t = BLOB_HEADER_MAGIC ++ be32 c ++ be16 k.length ++ k ++ u ∧ u.length < 4)

/-- The truncated remains of a record block whose truncation point falls
inside the variable-length key bytes or value bytes: the length prefix was
fully written but announces more bytes than remain in the file. -/
def TornTruncTail (t : List Nat) : Prop :=
  (∃ c klen u, c ≤ 4294967295 ∧ klen ≤ 65535 ∧
    t = BLOB_HEADER_MAGIC ++ be32 c ++ be16 klen ++ u ∧ u.length < klen) ∨
  (∃ c k vlen u, c ≤ 4294967295 ∧ k.length ≤ 65535 ∧ vlen ≤ 4294967295 ∧
    t = BLOB_HEADER_MAGIC ++ be32 c ++ be16 k.length ++ k ++ be32 vlen ++ u ∧
    u.length < vlen)

/-!
## Basic facts about the stream model and the big-endian codecs
-/

theorem readExact_ok_inv {s : Stream} {n : Nat} {bs : List Nat} {s2 : Stream}
    (h : readExact s n = .ok (bs, s2)) :
    s2 = { s with pos := s.pos + n } ∧ s.pos + n ≤ s.data.length ∧
      bs = (s.data.drop s.pos).take n := by
  unfold readExact at h
  split at h
  · exact ⟨(Prod.mk.injEq _ _ _ _ ▸ Except.ok.inj h).2.symm, by assumption,
      (Prod.mk.injEq _ _ _ _ ▸ Except.ok.inj h).1.symm⟩
  · cases hf : s.fault <;> rw [hf] at h <;> cases h

theorem readExact_eq_ok {s : Stream} {n : Nat} {bs rest : List Nat}
    (hpos : s.pos ≤ s.data.length)
    (h : s.data.drop s.pos = bs ++ rest) (hn : bs.length = n) :
    readExact s n = .ok (bs, { s with pos := s.pos + n }) := by
  have hlen : s.data.length - s.pos = n + rest.length := by
    have h2 := congrArg List.length h
    simp only [List.length_drop, List.length_append, hn] at h2
    exact h2
  have hle : s.pos + n ≤ s.data.length := by omega
  unfold readExact
  rw [if_pos hle, h, List.take_left' hn]

theorem readExact_eq_eof {s : Stream} {n : Nat}
    (hlen : s.data.length < s.pos + n) (hf : s.fault = none) :
    readExact s n = .error .unexpectedEof := by
  unfold readExact
  rw [if_neg (by omega), hf]

theorem readExact_eq_fault {s : Stream} {n code : Nat}
    (hlen : s.data.length < s.pos + n) (hf : s.fault = some code) :
    readExact s n = .error (.other code) := by
  unfold readExact
  rw [if_neg (by omega), hf]

theorem beVal_be16 {n : Nat} (h : n ≤ 65535) : beVal (be16 n) = n := by
  simp only [beVal, be16, List.foldl_cons, List.foldl_nil]
  omega

theorem beVal_be32 {n : Nat} (h : n ≤ 4294967295) : beVal (be32 n) = n := by
  simp only [beVal, be32, List.foldl_cons, List.foldl_nil]
  omega

theorem be16_length (n : Nat) : (be16 n).length = 2 := rfl

theorem be32_length (n : Nat) : (be32 n).length = 4 := rfl

theorem readU16be_eq_ok {s : Stream} {n : Nat} {rest : List Nat}
    (hpos : s.pos ≤ s.data.length)
    (h : s.data.drop s.pos = be16 n ++ rest) (hn : n ≤ 65535) :
    readU16be s = .ok (n, { s with pos := s.pos + 2 }) := by
  unfold readU16be
  rw [readExact_eq_ok hpos h (be16_length n), Except.map, beVal_be16 hn]

theorem readU32be_eq_ok {s : Stream} {n : Nat} {rest : List Nat}
    (hpos : s.pos ≤ s.data.length)
    (h : s.data.drop s.pos = be32 n ++ rest) (hn : n ≤ 4294967295) :
    readU32be s = .ok (n, { s with pos := s.pos + 4 }) := by
  unfold readU32be
  rw [readExact_eq_ok hpos h (be32_length n), Except.map, beVal_be32 hn]

theorem readU16be_eq_eof {s : Stream}
    (hlen : s.data.length < s.pos + 2) (hf : s.fault = none) :
    readU16be s = .error .unexpectedEof := by
  unfold readU16be
  rw [readExact_eq_eof hlen hf]
  rfl

theorem readU32be_eq_eof {s : Stream}
    (hlen : s.data.length < s.pos + 4) (hf : s.fault = none) :
    readU32be s = .error .unexpectedEof := by
  unfold readU32be
  rw [readExact_eq_eof hlen hf]
  rfl

theorem readU16be_ok_inv {s : Stream} {n : Nat} {s2 : Stream}
    (h : readU16be s = .ok (n, s2)) :
    s2 = { s with pos := s.pos + 2 } ∧ s.pos + 2 ≤ s.data.length := by
  unfold readU16be at h
  cases he : readExact s 2 with
  | error e => rw [he] at h; cases h
  | ok p =>
    rw [he] at h
    cases h
    have := readExact_ok_inv he
    exact ⟨this.1, this.2.1⟩

theorem readU32be_ok_inv {s : Stream} {n : Nat} {s2 : Stream}
    (h : readU32be s = .ok (n, s2)) :
    s2 = { s with pos := s.pos + 4 } ∧ s.pos + 4 ≤ s.data.length := by
  unfold readU32be at h
  cases he : readExact s 4 with
  | error e => rw [he] at h; cases h
  | ok p =>
    rw [he] at h
    cases h
    have := readExact_ok_inv he
    exact ⟨this.1, this.2.1⟩

theorem drop_of_drop_append {l pre t : List Nat} {p n : Nat}
    (h : l.drop p = pre ++ t) (hn : pre.length = n) : l.drop (p + n) = t := by
  rw [← List.drop_drop, h, List.drop_left' hn]

/-!
## Behaviour of a single pull, branch by branch
-/

theorem next_terminated {r : Reader} (ht : r.is_terminated = true) :
    Reader.next r = (none, r) := by
  simp [Reader.next, ht]

theorem next_magic_error {r : Reader} {e : IoError} (ht : r.is_terminated = false)
    (he : readExact r.inner BLOB_HEADER_MAGIC.length = .error e) :
    Reader.next r = (some (.error (.ioErr e)), r) := by
  simp [Reader.next, ht, he]

theorem next_invalid {r : Reader} {buf : List Nat} {s1 : Stream}
    (ht : r.is_terminated = false)
    (hm : readExact r.inner BLOB_HEADER_MAGIC.length = .ok (buf, s1))
    (hmeta : buf ≠ METADATA_HEADER_MAGIC) (hblob : buf ≠ BLOB_HEADER_MAGIC) :
    Reader.next r = (some (.error (.deserialize (.invalidHeader "Blob"))),
      { r with inner := s1 }) := by
  simp [Reader.next, ht, hm, hmeta, hblob]

theorem next_footer {r : Reader} {rest : List Nat} (ht : r.is_terminated = false)
    (hpos : r.inner.pos ≤ r.inner.data.length)
    (h : r.inner.data.drop r.inner.pos = METADATA_HEADER_MAGIC ++ rest) :
    Reader.next r = (none,
      { r with inner := { r.inner with pos := r.inner.pos + METADATA_HEADER_MAGIC.length },
               is_terminated := true }) := by
  have hm : readExact r.inner BLOB_HEADER_MAGIC.length =
      .ok (METADATA_HEADER_MAGIC, { r.inner with pos := r.inner.pos + BLOB_HEADER_MAGIC.length }) :=
    readExact_eq_ok hpos h rfl
  simp [Reader.next, ht, hm]
  rfl

theorem next_record {r : Reader} {k v : List Nat} {c : Nat} {rest : List Nat}
    (ht : r.is_terminated = false)
    (hpos : r.inner.pos ≤ r.inner.data.length)
    (h : r.inner.data.drop r.inner.pos = encodeRecord k v c ++ rest)
    (hk : k.length ≤ 65535) (hv : v.length ≤ 4294967295) (hc : c ≤ 4294967295) :
    Reader.next r = (some (.ok (k, v, c)),
      { r with inner := { r.inner with pos := r.inner.pos + blockSize (k, v, c) } }) := by
  obtain ⟨sid, ⟨d, p, f⟩, term⟩ := r
  simp only at ht hpos h
  subst ht
  have h0 : d.drop p =
      BLOB_HEADER_MAGIC ++ (be32 c ++ (be16 k.length ++ (k ++ (be32 v.length ++ (v ++ rest))))) := by
    simpa [encodeRecord, List.append_assoc] using h
  have hL := congrArg List.length h0
  simp [be32, be16, BLOB_HEADER_MAGIC] at hL
  have hd1 : d.drop (p + 4) = be32 c ++ (be16 k.length ++ (k ++ (be32 v.length ++ (v ++ rest)))) :=
    drop_of_drop_append h0 rfl
  have hd2 : d.drop (p + 4 + 4) = be16 k.length ++ (k ++ (be32 v.length ++ (v ++ rest))) := by
    have := drop_of_drop_append hd1 (be32_length c)
    simpa [Nat.add_assoc] using this
  have hd3 : d.drop (p + 4 + 4 + 2) = k ++ (be32 v.length ++ (v ++ rest)) := by
    have := drop_of_drop_append hd2 (be16_length k.length)
    simpa [Nat.add_assoc] using this
  have hd4 : d.drop (p + 4 + 4 + 2 + k.length) = be32 v.length ++ (v ++ rest) := by
    have := drop_of_drop_append hd3 (rfl : k.length = k.length)
    simpa [Nat.add_assoc] using this
  have hd5 : d.drop (p + 4 + 4 + 2 + k.length + 4) = v ++ rest := by
    have := drop_of_drop_append hd4 (be32_length v.length)
    simpa [Nat.add_assoc] using this
  have e1 : readExact (⟨d, p, f⟩ : Stream) BLOB_HEADER_MAGIC.length =
      .ok (BLOB_HEADER_MAGIC, ⟨d, p + 4, f⟩) :=
    readExact_eq_ok hpos h0 rfl
  have e2 : readU32be (⟨d, p + 4, f⟩ : Stream) = .ok (c, ⟨d, p + 4 + 4, f⟩) :=
    readU32be_eq_ok (by simp; omega) hd1 hc
  have e3 : readU16be (⟨d, p + 4 + 4, f⟩ : Stream) = .ok (k.length, ⟨d, p + 4 + 4 + 2, f⟩) :=
    readU16be_eq_ok (by simp; omega) hd2 hk
  have e4 : readExact (⟨d, p + 4 + 4 + 2, f⟩ : Stream) k.length =
      .ok (k, ⟨d, p + 4 + 4 + 2 + k.length, f⟩) :=
    readExact_eq_ok (by simp; omega) hd3 rfl
  have e5 : readU32be (⟨d, p + 4 + 4 + 2 + k.length, f⟩ : Stream) =
      .ok (v.length, ⟨d, p + 4 + 4 + 2 + k.length + 4, f⟩) :=
    readU32be_eq_ok (by simp; omega) hd4 hv
  have e6 : readExact (⟨d, p + 4 + 4 + 2 + k.length + 4, f⟩ : Stream) v.length =
      .ok (v, ⟨d, p + 4 + 4 + 2 + k.length + 4 + v.length, f⟩) :=
    readExact_eq_ok (by simp; omega) hd5 rfl
  have hne : (BLOB_HEADER_MAGIC = METADATA_HEADER_MAGIC) = False :=
    eq_false (by decide)
  simp [Reader.next, e1, e2, e3, e4, e5, e6, hne]
  simp [blockSize, BLOB_HEADER_MAGIC]
  omega

theorem next_clean_crc {r : Reader} {u : List Nat}
    (ht : r.is_terminated = false) (hpos : r.inner.pos ≤ r.inner.data.length)
    (hf : r.inner.fault = none)
    (h : r.inner.data.drop r.inner.pos = BLOB_HEADER_MAGIC ++ u) (hu : u.length < 4) :
    Reader.next r = (none, { r with inner := { r.inner with pos := r.inner.pos + 4 } }) := by
  obtain ⟨sid, ⟨d, p, f⟩, term⟩ := r
  simp only at ht hpos hf h
  subst ht; subst hf
  have hL := congrArg List.length h
  simp [BLOB_HEADER_MAGIC] at hL
  have e1 : readExact (⟨d, p, none⟩ : Stream) BLOB_HEADER_MAGIC.length =
      .ok (BLOB_HEADER_MAGIC, ⟨d, p + 4, none⟩) :=
    readExact_eq_ok hpos h rfl
  have e2 : readU32be (⟨d, p + 4, none⟩ : Stream) = .error .unexpectedEof :=
    readU32be_eq_eof (by simp; omega) rfl
  have hne : (BLOB_HEADER_MAGIC = METADATA_HEADER_MAGIC) = False := eq_false (by decide)
  simp [Reader.next, e1, e2, hne]

theorem next_clean_keylen {r : Reader} {c : Nat} {u : List Nat}
    (ht : r.is_terminated = false) (hpos : r.inner.pos ≤ r.inner.data.length)
    (hf : r.inner.fault = none)
    (h : r.inner.data.drop r.inner.pos = BLOB_HEADER_MAGIC ++ (be32 c ++ u))
    (hc : c ≤ 4294967295) (hu : u.length < 2) :
    Reader.next r = (none, { r with inner := { r.inner with pos := r.inner.pos + 8 } }) := by
  obtain ⟨sid, ⟨d, p, f⟩, term⟩ := r
  simp only at ht hpos hf h
  subst ht; subst hf
  have hL := congrArg List.length h
  simp [BLOB_HEADER_MAGIC, be32] at hL
  have hd1 : d.drop (p + 4) = be32 c ++ u := drop_of_drop_append h rfl
  have e1 : readExact (⟨d, p, none⟩ : Stream) BLOB_HEADER_MAGIC.length =
      .ok (BLOB_HEADER_MAGIC, ⟨d, p + 4, none⟩) :=
    readExact_eq_ok hpos h rfl
  have e2 : readU32be (⟨d, p + 4, none⟩ : Stream) = .ok (c, ⟨d, p + 4 + 4, none⟩) :=
    readU32be_eq_ok (by simp; omega) hd1 hc
  have e3 : readU16be (⟨d, p + 4 + 4, none⟩ : Stream) = .error .unexpectedEof :=
    readU16be_eq_eof (by simp; omega) rfl
  have hne : (BLOB_HEADER_MAGIC = METADATA_HEADER_MAGIC) = False := eq_false (by decide)
  simp [Reader.next, e1, e2, e3, hne]

theorem next_torn_key {r : Reader} {c klen : Nat} {u : List Nat}
    (ht : r.is_terminated = false) (hpos : r.inner.pos ≤ r.inner.data.length)
    (hf : r.inner.fault = none)
    (h : r.inner.data.drop r.inner.pos = BLOB_HEADER_MAGIC ++ (be32 c ++ (be16 klen ++ u)))
    (hc : c ≤ 4294967295) (hklen : klen ≤ 65535) (hu : u.length < klen) :
    Reader.next r = (some (.error (.ioErr .unexpectedEof)),
      { r with inner := { r.inner with pos := r.inner.pos + 10 } }) := by
  obtain ⟨sid, ⟨d, p, f⟩, term⟩ := r
  simp only at ht hpos hf h
  subst ht; subst hf
  have hL := congrArg List.length h
  simp [BLOB_HEADER_MAGIC, be32, be16] at hL
  have hd1 : d.drop (p + 4) = be32 c ++ (be16 klen ++ u) := drop_of_drop_append h rfl
  have hd2 : d.drop (p + 4 + 4) = be16 klen ++ u := by
    have := drop_of_drop_append hd1 (be32_length c)
    simpa [Nat.add_assoc] using this
  have e1 : readExact (⟨d, p, none⟩ : Stream) BLOB_HEADER_MAGIC.length =
      .ok (BLOB_HEADER_MAGIC, ⟨d, p + 4, none⟩) :=
    readExact_eq_ok hpos h rfl
  have e2 : readU32be (⟨d, p + 4, none⟩ : Stream) = .ok (c, ⟨d, p + 4 + 4, none⟩) :=
    readU32be_eq_ok (by simp; omega) hd1 hc
  have e3 : readU16be (⟨d, p + 4 + 4, none⟩ : Stream) = .ok (klen, ⟨d, p + 4 + 4 + 2, none⟩) :=
    readU16be_eq_ok (by simp; omega) hd2 hklen
  have e4 : readExact (⟨d, p + 4 + 4 + 2, none⟩ : Stream) klen = .error .unexpectedEof :=
    readExact_eq_eof (by simp; omega) rfl
  have hne : (BLOB_HEADER_MAGIC = METADATA_HEADER_MAGIC) = False := eq_false (by decide)
  simp [Reader.next, e1, e2, e3, e4, hne]

theorem next_clean_vallen {r : Reader} {c : Nat} {k u : List Nat}
    (ht : r.is_terminated = false) (hpos : r.inner.pos ≤ r.inner.data.length)
    (hf : r.inner.fault = none)
    (h : r.inner.data.drop r.inner.pos =
      BLOB_HEADER_MAGIC ++ (be32 c ++ (be16 k.length ++ (k ++ u))))
    (hc : c ≤ 4294967295) (hk : k.length ≤ 65535) (hu : u.length < 4) :
    Reader.next r = (none,
      { r with inner := { r.inner with pos := r.inner.pos + 10 + k.length } }) := by
  obtain ⟨sid, ⟨d, p, f⟩, term⟩ := r
  simp only at ht hpos hf h
  subst ht; subst hf
  have hL := congrArg List.length h
  simp [BLOB_HEADER_MAGIC, be32, be16] at hL
  have hd1 : d.drop (p + 4) = be32 c ++ (be16 k.length ++ (k ++ u)) := drop_of_drop_append h rfl
  have hd2 : d.drop (p + 4 + 4) = be16 k.length ++ (k ++ u) := by
    have := drop_of_drop_append hd1 (be32_length c)
    simpa [Nat.add_assoc] using this
  have hd3 : d.drop (p + 4 + 4 + 2) = k ++ u := by
    have := drop_of_drop_append hd2 (be16_length k.length)
    simpa [Nat.add_assoc] using this
  have e1 : readExact (⟨d, p, none⟩ : Stream) BLOB_HEADER_MAGIC.length =
      .ok (BLOB_HEADER_MAGIC, ⟨d, p + 4, none⟩) :=
    readExact_eq_ok hpos h rfl
  have e2 : readU32be (⟨d, p + 4, none⟩ : Stream) = .ok (c, ⟨d, p + 4 + 4, none⟩) :=
    readU32be_eq_ok (by simp; omega) hd1 hc
  have e3 : readU16be (⟨d, p + 4 + 4, none⟩ : Stream) =
      .ok (k.length, ⟨d, p + 4 + 4 + 2, none⟩) :=
    readU16be_eq_ok (by simp; omega) hd2 hk
  have e4 : readExact (⟨d, p + 4 + 4 + 2, none⟩ : Stream) k.length =
      .ok (k, ⟨d, p + 4 + 4 + 2 + k.length, none⟩) :=
    readExact_eq_ok (by simp; omega) hd3 rfl
  have e5 : readU32be (⟨d, p + 4 + 4 + 2 + k.length, none⟩ : Stream) = .error .unexpectedEof :=
    readU32be_eq_eof (by simp; omega) rfl
  have hne : (BLOB_HEADER_MAGIC = METADATA_HEADER_MAGIC) = False := eq_false (by decide)
  simp [Reader.next, e1, e2, e3, e4, e5, hne]

theorem next_torn_val {r : Reader} {c vlen : Nat} {k u : List Nat}
    (ht : r.is_terminated = false) (hpos : r.inner.pos ≤ r.inner.data.length)
    (hf : r.inner.fault = none)
    (h : r.inner.data.drop r.inner.pos =
      BLOB_HEADER_MAGIC ++ (be32 c ++ (be16 k.length ++ (k ++ (be32 vlen ++ u)))))
    (hc : c ≤ 4294967295) (hk : k.length ≤ 65535) (hvlen : vlen ≤ 4294967295)
    (hu : u.length < vlen) :
    Reader.next r = (some (.error (.ioErr .unexpectedEof)),
      { r with inner := { r.inner with pos := r.inner.pos + 14 + k.length } }) := by
  obtain ⟨sid, ⟨d, p, f⟩, term⟩ := r
  simp only at ht hpos hf h
  subst ht; subst hf
  have hL := congrArg List.length h
  simp [BLOB_HEADER_MAGIC, be32, be16] at hL
  have hd1 : d.drop (p + 4) = be32 c ++ (be16 k.length ++ (k ++ (be32 vlen ++ u))) :=
    drop_of_drop_append h rfl
  have hd2 : d.drop (p + 4 + 4) = be16 k.length ++ (k ++ (be32 vlen ++ u)) := by
    have := drop_of_drop_append hd1 (be32_length c)
    simpa [Nat.add_assoc] using this
  have hd3 : d.drop (p + 4 + 4 + 2) = k ++ (be32 vlen ++ u) := by
    have := drop_of_drop_append hd2 (be16_length k.length)
    simpa [Nat.add_assoc] using this
  have hd4 : d.drop (p + 4 + 4 + 2 + k.length) = be32 vlen ++ u := by
    have := drop_of_drop_append hd3 (rfl : k.length = k.length)
    simpa [Nat.add_assoc] using this
  have e1 : readExact (⟨d, p, none⟩ : Stream) BLOB_HEADER_MAGIC.length =
      .ok (BLOB_HEADER_MAGIC, ⟨d, p + 4, none⟩) :=
    readExact_eq_ok hpos h rfl
  have e2 : readU32be (⟨d, p + 4, none⟩ : Stream) = .ok (c, ⟨d, p + 4 + 4, none⟩) :=
    readU32be_eq_ok (by simp; omega) hd1 hc
  have e3 : readU16be (⟨d, p + 4 + 4, none⟩ : Stream) =
      .ok (k.length, ⟨d, p + 4 + 4 + 2, none⟩) :=
    readU16be_eq_ok (by simp; omega) hd2 hk
  have e4 : readExact (⟨d, p + 4 + 4 + 2, none⟩ : Stream) k.length =
      .ok (k, ⟨d, p + 4 + 4 + 2 + k.length, none⟩) :=
    readExact_eq_ok (by simp; omega) hd3 rfl
  have e5 : readU32be (⟨d, p + 4 + 4 + 2 + k.length, none⟩ : Stream) =
      .ok (vlen, ⟨d, p + 4 + 4 + 2 + k.length + 4, none⟩) :=
    readU32be_eq_ok (by simp; omega) hd4 hvlen
  have e6 : readExact (⟨d, p + 4 + 4 + 2 + k.length + 4, none⟩ : Stream) vlen =
      .error .unexpectedEof :=
    readExact_eq_eof (by simp; omega) rfl
  have hne : (BLOB_HEADER_MAGIC = METADATA_HEADER_MAGIC) = False := eq_false (by decide)
  simp [Reader.next, e1, e2, e3, e4, e5, e6, hne]
  omega

theorem encodeRecord_length (k v : List Nat) (c : Nat) :
    (encodeRecord k v c).length = blockSize (k, v, c) := by
  simp [encodeRecord, blockSize, be16, be32, BLOB_HEADER_MAGIC]
  omega

theorem encodeRecs_cons (x : Record) (xs : List Record) :
    encodeRecs (x :: xs) = encodeRecord x.1 x.2.1 x.2.2 ++ encodeRecs xs := rfl

theorem sizeRecs_cons (x : Record) (xs : List Record) :
    sizeRecs (x :: xs) = blockSize x + sizeRecs xs := by
  simp [sizeRecs]

/-!
## Decoding a run of fully written record blocks
-/

theorem run_chunk {recs : List Record} {t : List Nat} {m : Nat} {r : Reader}
    (ht : r.is_terminated = false)
    (hpos : r.inner.pos ≤ r.inner.data.length)
    (h : r.inner.data.drop r.inner.pos = encodeRecs recs ++ t)
    (hwf : ∀ x ∈ recs, WFRecord x) :
    run (recs.length + m) r =
      (recs ++
        (run m { r with inner := { r.inner with pos := r.inner.pos + sizeRecs recs } }).1,
       (run m { r with inner := { r.inner with pos := r.inner.pos + sizeRecs recs } }).2.1,
       (run m { r with inner := { r.inner with pos := r.inner.pos + sizeRecs recs } }).2.2) := by
  induction recs generalizing r with
  | nil =>
    have : ({ r with inner := { r.inner with pos := r.inner.pos + sizeRecs [] } } : Reader) = r := by
      simp [sizeRecs]
    rw [this]
    simp
  | cons x xs ih =>
    obtain ⟨k, v, c⟩ := x
    have hwx : WFRecord (k, v, c) := hwf _ (List.mem_cons_self _ _)
    have h1 : r.inner.data.drop r.inner.pos = encodeRecord k v c ++ (encodeRecs xs ++ t) := by
      rw [h, encodeRecs_cons, List.append_assoc]
    have hnx := next_record ht hpos h1 hwx.1 hwx.2.1 hwx.2.2
    have hL := congrArg List.length h1
    simp only [List.length_drop, List.length_append, encodeRecord_length] at hL
    have hfuel : ((k, v, c) :: xs).length + m = (xs.length + m) + 1 := by
      simp [List.length_cons]
      omega
    rw [hfuel]
    simp only [run, hnx]
    have ht1 : ({ r with
        inner := { r.inner with pos := r.inner.pos + blockSize (k, v, c) } } : Reader).is_terminated
        = false := ht
    have hpos1 : ({ r with
        inner := { r.inner with pos := r.inner.pos + blockSize (k, v, c) } } : Reader).inner.pos ≤
        ({ r with
        inner := { r.inner with pos := r.inner.pos + blockSize (k, v, c) } } : Reader).inner.data.length := by
      simp
      omega
    have hdrop1 : ({ r with
        inner := { r.inner with pos := r.inner.pos + blockSize (k, v, c) } } : Reader).inner.data.drop
        ({ r with
        inner := { r.inner with pos := r.inner.pos + blockSize (k, v, c) } } : Reader).inner.pos =
        encodeRecs xs ++ t := by
      simpa using drop_of_drop_append h1 (encodeRecord_length k v c)
    have hrec := ih ht1 hpos1 hdrop1 (fun y hy => hwf y (List.mem_cons_of_mem _ hy))
    rw [hrec]
    have hpe : r.inner.pos + blockSize (k, v, c) + sizeRecs xs =
        r.inner.pos + sizeRecs ((k, v, c) :: xs) := by
      rw [sizeRecs_cons]
      omega
    simp [hpe]

/-!
## The cursor never moves backwards, and the segment id is never consulted
-/

theorem next_pos_mono (r : Reader) : r.inner.pos ≤ (Reader.next r).2.inner.pos := by
  by_cases ht : r.is_terminated
  · simp [Reader.next, ht]
  · have ht2 : r.is_terminated = false := by simpa using ht
    have hne : (BLOB_HEADER_MAGIC = METADATA_HEADER_MAGIC) = False := eq_false (by decide)
    rcases hm : readExact r.inner BLOB_HEADER_MAGIC.length with e | ⟨buf, s1⟩
    · simp [Reader.next, ht2, hm]
    · have p1 : s1.pos = r.inner.pos + BLOB_HEADER_MAGIC.length := by
        rw [(readExact_ok_inv hm).1]
      by_cases hmeta : buf = METADATA_HEADER_MAGIC
      · simp [Reader.next, ht2, hm, hmeta]
        omega
      · by_cases hblob : buf = BLOB_HEADER_MAGIC
        · rcases h2 : readU32be s1 with e | ⟨crc, s2⟩
          · by_cases he : e = IoError.unexpectedEof <;>
              simp [Reader.next, ht2, hm, hmeta, hblob, h2, he, hne] <;> omega
          · have p2 : s2.pos = s1.pos + 4 := by rw [(readU32be_ok_inv h2).1]
            rcases h3 : readU16be s2 with e | ⟨kl, s3⟩
            · by_cases he : e = IoError.unexpectedEof <;>
                simp [Reader.next, ht2, hm, hmeta, hblob, h2, h3, he, hne] <;> omega
            · have p3 : s3.pos = s2.pos + 2 := by rw [(readU16be_ok_inv h3).1]
              rcases h4 : readExact s3 kl with e | ⟨key, s4⟩
              · simp [Reader.next, ht2, hm, hmeta, hblob, h2, h3, h4, hne]
                omega
              · have p4 : s4.pos = s3.pos + kl := by rw [(readExact_ok_inv h4).1]
                rcases h5 : readU32be s4 with e | ⟨vl, s5⟩
                · by_cases he : e = IoError.unexpectedEof <;>
                    simp [Reader.next, ht2, hm, hmeta, hblob, h2, h3, h4, h5, he, hne] <;> omega
                · have p5 : s5.pos = s4.pos + 4 := by rw [(readU32be_ok_inv h5).1]
                  rcases h6 : readExact s5 vl with e | ⟨val, s6⟩
                  · simp [Reader.next, ht2, hm, hmeta, hblob, h2, h3, h4, h5, h6, hne]
                    omega
                  · have p6 : s6.pos = s5.pos + vl := by rw [(readExact_ok_inv h6).1]
                    simp [Reader.next, ht2, hm, hmeta, hblob, h2, h3, h4, h5, h6, hne]
                    omega
        · simp [Reader.next, ht2, hm, hmeta, hblob]
          omega

theorem next_id_indep (a b : Nat) (s : Stream) (t : Bool) :
    (Reader.next ⟨a, s, t⟩).1 = (Reader.next ⟨b, s, t⟩).1 ∧
    (Reader.next ⟨a, s, t⟩).2.inner = (Reader.next ⟨b, s, t⟩).2.inner ∧
    (Reader.next ⟨a, s, t⟩).2.is_terminated = (Reader.next ⟨b, s, t⟩).2.is_terminated ∧
    (Reader.next ⟨a, s, t⟩).2.segment_id = a ∧
    (Reader.next ⟨b, s, t⟩).2.segment_id = b := by
  cases t with
  | true => simp [Reader.next]
  | false =>
    have hne : (BLOB_HEADER_MAGIC = METADATA_HEADER_MAGIC) = False := eq_false (by decide)
    rcases hm : readExact s BLOB_HEADER_MAGIC.length with e | ⟨buf, s1⟩
    · simp [Reader.next, hm]
    · by_cases hmeta : buf = METADATA_HEADER_MAGIC
      · simp [Reader.next, hm, hmeta]
      · by_cases hblob : buf = BLOB_HEADER_MAGIC
        · rcases h2 : readU32be s1 with e | ⟨crc, s2⟩
          · by_cases he : e = IoError.unexpectedEof <;>
              simp [Reader.next, hm, hmeta, hblob, h2, he, hne]
          · rcases h3 : readU16be s2 with e | ⟨kl, s3⟩
            · by_cases he : e = IoError.unexpectedEof <;>
                simp [Reader.next, hm, hmeta, hblob, h2, h3, he, hne]
            · rcases h4 : readExact s3 kl with e | ⟨key, s4⟩
              · simp [Reader.next, hm, hmeta, hblob, h2, h3, h4, hne]
              · rcases h5 : readU32be s4 with e | ⟨vl, s5⟩
                · by_cases he : e = IoError.unexpectedEof <;>
                    simp [Reader.next, hm, hmeta, hblob, h2, h3, h4, h5, he, hne]
                · rcases h6 : readExact s5 vl with e | ⟨val, s6⟩ <;>
                    simp [Reader.next, hm, hmeta, hblob, h2, h3, h4, h5, h6, hne]
        · simp [Reader.next, hm, hmeta, hblob]

theorem run_id_indep (a b : Nat) (s : Stream) (t : Bool) (n : Nat) :
    (run n ⟨a, s, t⟩).1 = (run n ⟨b, s, t⟩).1 ∧
    (run n ⟨a, s, t⟩).2.1 = (run n ⟨b, s, t⟩).2.1 ∧
    (run n ⟨a, s, t⟩).2.2.inner = (run n ⟨b, s, t⟩).2.2.inner ∧
    (run n ⟨a, s, t⟩).2.2.is_terminated = (run n ⟨b, s, t⟩).2.2.is_terminated := by
  induction n generalizing s t with
  | zero => simp [run]
  | succ n ih =>
    obtain ⟨hres, hinner, hterm, hsa, hsb⟩ := next_id_indep a b s t
    rcases hna : Reader.next ⟨a, s, t⟩ with ⟨resa, ra⟩
    rcases hnb : Reader.next ⟨b, s, t⟩ with ⟨resb, rb⟩
    rw [hna] at hres hinner hterm hsa
    rw [hnb] at hres hinner hterm hsb
    simp only at hres hinner hterm hsa hsb
    obtain ⟨sida, sa, ta⟩ := ra
    obtain ⟨sidb, sb, tb⟩ := rb
    simp only at hinner hterm hsa hsb
    subst hres; subst hinner; subst hterm; subst hsa; subst hsb
    rcases resa with _ | x
    · simp [run, hna, hnb]
    · rcases x with e | rec
      · simp [run, hna, hnb]
      · obtain ⟨h1, h2, h3, h4⟩ := ih sa ta
        simp [run, hna, hnb, h1, h2, h3, h4]

theorem encodeRecs_length (recs : List Record) :
    (encodeRecs recs).length = sizeRecs recs := by
  induction recs with
  | nil => simp [encodeRecs, sizeRecs]
  | cons x xs ih =>
    obtain ⟨a, b, c⟩ := x
    rw [encodeRecs_cons, sizeRecs_cons]
    simp [ih]
    have := encodeRecord_length a b c
    omega

theorem encodeRecs_append (xs ys : List Record) :
    encodeRecs (xs ++ ys) = encodeRecs xs ++ encodeRecs ys := by
  induction xs with
  | nil => simp [encodeRecs]
  | cons x xs ih =>
    rw [List.cons_append, encodeRecs_cons, encodeRecs_cons, ih, List.append_assoc]

/-!
## Claims
-/

/-- C1 (counterexample). A reader in the `Reading` state over an empty file:
the magic read is short by the full token width (zero bytes read), yet the
pull returns an `UnexpectedEof` I/O error and leaves the reader unterminated,
instead of transitioning to `Terminated` and reporting
"no more items" as the claim states. -/
theorem magic_short_read_counterexample :
    (mkReader 0 []).is_terminated = false ∧
    readExact (mkReader 0 []).inner BLOB_HEADER_MAGIC.length = .error .unexpectedEof ∧
    Reader.next (mkReader 0 []) = (some (.error (.ioErr .unexpectedEof)), mkReader 0 []) :=
  ⟨rfl, rfl, rfl⟩

/-- C1 (amended). If the read of the leading magic token fails — in
particular when it is short by any amount, including zero bytes read at a
file that ends exactly at a block boundary, in which case the failure is an
`UnexpectedEof` I/O error — the pull returns that I/O error to the caller and
the reader stays in the `Reading` state; no "no more items" signal is
produced. -/
theorem magic_short_read_propagates_error (r : Reader) (e : IoError)
    (ht : r.is_terminated = false)
    (he : readExact r.inner BLOB_HEADER_MAGIC.length = .error e) :
    Reader.next r = (some (.error (.ioErr e)), r) ∧
    (Reader.next r).2.is_terminated = false := by
  have h := next_magic_error ht he
  exact ⟨h, by rw [h]; exact ht⟩

/-- C1 (witness). The amended claim evaluated on a file holding a single
byte of a torn magic token. -/
theorem magic_short_read_propagates_error_witness :
    Reader.next (mkReader 7 [118]) = (some (.error (.ioErr .unexpectedEof)), mkReader 7 [118]) ∧
    (Reader.next (mkReader 7 [118])).2.is_terminated = false :=
  magic_short_read_propagates_error (mkReader 7 [118]) .unexpectedEof rfl rfl

/-- C3 (counterexample). A file holding exactly one full record magic and
nothing else: the first pull signals exhaustion (clean end inside the
checksum field) but does not set the terminated flag, and the immediately
following pull performs I/O again and returns an `UnexpectedEof` error —
so exhaustion is not idempotent on the clean-end path, contradicting the
claim. -/
theorem clean_end_not_sticky_counterexample :
    Reader.next (mkReader 0 BLOB_HEADER_MAGIC) =
      (none, ⟨0, ⟨BLOB_HEADER_MAGIC, 4, none⟩, false⟩) ∧
    Reader.next (⟨0, ⟨BLOB_HEADER_MAGIC, 4, none⟩, false⟩ : Reader) =
      (some (.error (.ioErr .unexpectedEof)), ⟨0, ⟨BLOB_HEADER_MAGIC, 4, none⟩, false⟩) :=
  ⟨rfl, rfl⟩

/-- C3 (amended). Termination is sticky only for the terminated flag: once
`is_terminated` is set — which footer-magic detection does — every further
pull returns "no more items" with the reader unchanged and no I/O performed.
The short-read clean-end paths signal exhaustion without setting the flag,
so a subsequent pull attempts I/O again and, at the end of the file, returns
an `UnexpectedEof` error rather than exhaustion. -/
theorem termination_stickiness_amended :
    (∀ r : Reader, r.is_terminated = true → Reader.next r = (none, r)) ∧
    (∀ (r : Reader) (rest : List Nat), r.is_terminated = false →
      r.inner.pos ≤ r.inner.data.length →
      r.inner.data.drop r.inner.pos = METADATA_HEADER_MAGIC ++ rest →
      (Reader.next r).1 = none ∧ (Reader.next r).2.is_terminated = true) ∧
    (∀ (r : Reader) (u : List Nat), r.is_terminated = false →
      r.inner.pos ≤ r.inner.data.length → r.inner.fault = none →
      r.inner.data.drop r.inner.pos = BLOB_HEADER_MAGIC ++ u → u.length < 4 →
      (Reader.next r).1 = none ∧ (Reader.next r).2.is_terminated = false) ∧
    (∀ r : Reader, r.is_terminated = false → r.inner.fault = none →
      r.inner.pos = r.inner.data.length →
      (Reader.next r).1 = some (.error (.ioErr .unexpectedEof))) := by
  refine ⟨fun r ht => next_terminated ht, ?_, ?_, ?_⟩
  · intro r rest ht hpos h
    rw [next_footer ht hpos h]
    exact ⟨rfl, rfl⟩
  · intro r u ht hpos hf h hu
    rw [next_clean_crc ht hpos hf h hu]
    exact ⟨rfl, ht⟩
  · intro r ht hf hpos
    have he : readExact r.inner BLOB_HEADER_MAGIC.length = .error .unexpectedEof :=
      readExact_eq_eof (by rw [hpos]; simp [BLOB_HEADER_MAGIC]) hf
    rw [next_magic_error ht he]

/-- C3 (witness). The amended claim evaluated on concrete readers: a
terminated reader over junk data, a fresh reader over a footer-only file, a
fresh reader over a lone record magic, and a reader already at the end of
its data. -/
theorem termination_stickiness_amended_witness :
    Reader.next (⟨3, ⟨[9, 9], 1, none⟩, true⟩ : Reader) = (none, ⟨3, ⟨[9, 9], 1, none⟩, true⟩) ∧
    ((Reader.next (mkReader 0 METADATA_HEADER_MAGIC)).1 = none ∧
      (Reader.next (mkReader 0 METADATA_HEADER_MAGIC)).2.is_terminated = true) ∧
    ((Reader.next (mkReader 0 BLOB_HEADER_MAGIC)).1 = none ∧
      (Reader.next (mkReader 0 BLOB_HEADER_MAGIC)).2.is_terminated = false) ∧
    (Reader.next (⟨0, ⟨[5], 1, none⟩, false⟩ : Reader)).1 =
      some (.error (.ioErr .unexpectedEof)) :=
  ⟨termination_stickiness_amended.1 _ rfl,
   termination_stickiness_amended.2.1 (mkReader 0 METADATA_HEADER_MAGIC) []
     rfl (by decide) (by decide),
   termination_stickiness_amended.2.2.1 (mkReader 0 BLOB_HEADER_MAGIC) []
     rfl (by decide) rfl (by decide) (by decide),
   termination_stickiness_amended.2.2.2 _ rfl rfl rfl⟩

/-- C4 (confirmed). When the leading magic token is fully read and equals
neither registered constant, the pull returns exactly the typed
invalid-header deserialization error — distinct from exhaustion — and the
reader remains in the `Reading` state. -/
theorem invalid_header_typed_error (r : Reader) (buf : List Nat) (s1 : Stream)
    (ht : r.is_terminated = false)
    (hm : readExact r.inner BLOB_HEADER_MAGIC.length = .ok (buf, s1))
    (hmeta : buf ≠ METADATA_HEADER_MAGIC) (hblob : buf ≠ BLOB_HEADER_MAGIC) :
    Reader.next r =
      (some (.error (.deserialize (.invalidHeader "Blob"))), { r with inner := s1 }) ∧
    (Reader.next r).2.is_terminated = false := by
  have h := next_invalid ht hm hmeta hblob
  exact ⟨h, by rw [h]; exact ht⟩

/-- C4 (witness). A file whose first block starts with four zero bytes:
one invalid-header error, reader still in `Reading`. -/
theorem invalid_header_typed_error_witness :
    Reader.next (mkReader 0 [0, 0, 0, 0, 1, 2]) =
      (some (.error (.deserialize (.invalidHeader "Blob"))),
        ⟨0, ⟨[0, 0, 0, 0, 1, 2], 4, none⟩, false⟩) ∧
    (Reader.next (mkReader 0 [0, 0, 0, 0, 1, 2])).2.is_terminated = false :=
  invalid_header_typed_error (mkReader 0 [0, 0, 0, 0, 1, 2]) [0, 0, 0, 0]
    ⟨[0, 0, 0, 0, 1, 2], 4, none⟩ rfl rfl (by decide) (by decide)

/-- C6 (confirmed). When the leading magic token is fully read and equals
the footer magic, the reader transitions to `Terminated`, reports "no more
items", and the cursor offset afterwards is exactly the first byte after the
magic token — the start of the footer payload. -/
theorem footer_detection_terminates_at_payload (r : Reader) (rest : List Nat)
    (ht : r.is_terminated = false)
    (hpos : r.inner.pos ≤ r.inner.data.length)
    (h : r.inner.data.drop r.inner.pos = METADATA_HEADER_MAGIC ++ rest) :
    Reader.next r = (none,
      { r with inner := { r.inner with pos := r.inner.pos + METADATA_HEADER_MAGIC.length },
               is_terminated := true }) ∧
    (Reader.next r).2.get_offset = r.get_offset + METADATA_HEADER_MAGIC.length := by
  have h1 := next_footer ht hpos h
  exact ⟨h1, by rw [h1]; rfl⟩

/-- C6 (witness). The immediate-footer scenario: a file consisting of only
the footer magic yields zero records and terminates with cursor offset equal
to the magic length. -/
theorem footer_detection_terminates_at_payload_witness :
    Reader.next (mkReader 0 METADATA_HEADER_MAGIC) =
      (none, ⟨0, ⟨METADATA_HEADER_MAGIC, METADATA_HEADER_MAGIC.length, none⟩, true⟩) ∧
    (Reader.next (mkReader 0 METADATA_HEADER_MAGIC)).2.get_offset =
      METADATA_HEADER_MAGIC.length := by
  have h := footer_detection_terminates_at_payload (mkReader 0 METADATA_HEADER_MAGIC) []
    rfl (by decide) (by decide)
  exact ⟨h.1, h.2⟩

/-- C10 (confirmed). After the invalid-header error, the only state change
is the cursor, which sits exactly one magic-token length past where the bad
block began (the bad magic bytes are consumed); the terminated flag, segment
id, file data and fault state are unchanged, so the immediately following
pull takes the `Reading` path and decodes from that position. -/
theorem invalid_header_frame_effect (r : Reader) (buf : List Nat) (s1 : Stream)
    (ht : r.is_terminated = false)
    (hm : readExact r.inner BLOB_HEADER_MAGIC.length = .ok (buf, s1))
    (hmeta : buf ≠ METADATA_HEADER_MAGIC) (hblob : buf ≠ BLOB_HEADER_MAGIC) :
    (Reader.next r).2 =
      { r with inner := { r.inner with pos := r.inner.pos + BLOB_HEADER_MAGIC.length } } ∧
    (Reader.next r).1 = some (.error (.deserialize (.invalidHeader "Blob"))) ∧
    (Reader.next r).2.is_terminated = false ∧
    (Reader.next r).2.segment_id = r.segment_id ∧
    (Reader.next r).2.inner.data = r.inner.data ∧
    (Reader.next r).2.inner.fault = r.inner.fault ∧
    (Reader.next r).2.get_offset = r.get_offset + BLOB_HEADER_MAGIC.length := by
  have h := next_invalid ht hm hmeta hblob
  have hs1 := (readExact_ok_inv hm).1
  rw [h, hs1]
  exact ⟨rfl, rfl, ht, rfl, rfl, rfl, rfl⟩

/-- C10 (witness). The frame effect evaluated on a file beginning with four
zero bytes. -/
theorem invalid_header_frame_effect_witness :
    (Reader.next (mkReader 2 [0, 0, 0, 0, 9])).2 = ⟨2, ⟨[0, 0, 0, 0, 9], 4, none⟩, false⟩ ∧
    (Reader.next (mkReader 2 [0, 0, 0, 0, 9])).1 =
      some (.error (.deserialize (.invalidHeader "Blob"))) ∧
    (Reader.next (mkReader 2 [0, 0, 0, 0, 9])).2.is_terminated = false ∧
    (Reader.next (mkReader 2 [0, 0, 0, 0, 9])).2.segment_id = 2 ∧
    (Reader.next (mkReader 2 [0, 0, 0, 0, 9])).2.inner.data = [0, 0, 0, 0, 9] ∧
    (Reader.next (mkReader 2 [0, 0, 0, 0, 9])).2.inner.fault = none ∧
    (Reader.next (mkReader 2 [0, 0, 0, 0, 9])).2.get_offset = 4 := by
  have h := invalid_header_frame_effect (mkReader 2 [0, 0, 0, 0, 9]) [0, 0, 0, 0]
    ⟨[0, 0, 0, 0, 9], 4, none⟩ rfl rfl (by decide) (by decide)
  exact h

/-- C5 (confirmed). Encoding any ordered list of records (key length at most
65535, value length and checksum at most 2^32 − 1) as record blocks followed
by a footer block and decoding with the reader yields exactly the same list,
in order, with byte-identical keys and values; each stored checksum is passed
through unexamined into the yielded triple, and the decode ends in clean
footer termination with no error. -/
theorem record_round_trip (sid : Nat) (recs : List Record) (footer : List Nat)
    (hwf : ∀ x ∈ recs, WFRecord x) :
    (run (recs.length + 1) (mkReader sid (encodeSegment recs footer))).1 = recs ∧
    (run (recs.length + 1) (mkReader sid (encodeSegment recs footer))).2.1 = none ∧
    (run (recs.length + 1) (mkReader sid (encodeSegment recs footer))).2.2.is_terminated
      = true := by
  have hdrop : (mkReader sid (encodeSegment recs footer)).inner.data.drop
      (mkReader sid (encodeSegment recs footer)).inner.pos =
      encodeRecs recs ++ (METADATA_HEADER_MAGIC ++ footer) := by
    simp [mkReader, encodeSegment, List.append_assoc]
  have hrc := run_chunk (m := 1) rfl (by simp [mkReader]) hdrop hwf
  rw [hrc]
  have hd2 : ((encodeRecs recs ++ (METADATA_HEADER_MAGIC ++ footer)).drop
      (0 + sizeRecs recs)) = METADATA_HEADER_MAGIC ++ footer := by
    rw [Nat.zero_add, List.drop_left' (encodeRecs_length recs)]
  have hfoot := next_footer
    (r := { mkReader sid (encodeSegment recs footer) with
      inner := { (mkReader sid (encodeSegment recs footer)).inner with
        pos := (mkReader sid (encodeSegment recs footer)).inner.pos + sizeRecs recs } })
    rfl
    (by simp [mkReader, encodeSegment, encodeRecs_length])
    (by simpa [mkReader, encodeSegment, List.append_assoc] using hd2)
  simp [run, hfoot]

/-- C5 (witness). The spec section 8 example: two records, checksums 0xAAAA
and 0xBBBB, followed by an empty-payload footer. -/
theorem record_round_trip_witness :
    (run 3 (mkReader 0 (encodeSegment [([97], [49], 43690), ([98, 98], [50, 50], 48059)] []))).1
      = [([97], [49], 43690), ([98, 98], [50, 50], 48059)] ∧
    (run 3 (mkReader 0 (encodeSegment [([97], [49], 43690), ([98, 98], [50, 50], 48059)] []))).2.1
      = none ∧
    (run 3 (mkReader 0
        (encodeSegment [([97], [49], 43690), ([98, 98], [50, 50], 48059)] []))).2.2.is_terminated
      = true :=
  record_round_trip 0 [([97], [49], 43690), ([98, 98], [50, 50], 48059)] [] (by decide)

/-- C7 (confirmed). On a well-formed segment file, after `N` record blocks
have been decoded the reported cursor offset equals the exact cumulative
encoded size of those `N` blocks (the sum of
magic length + 4 + 2 + key length + 4 + value length over the decoded
records), and the cursor offset never decreases across any pull. -/
theorem offset_correctness :
    (∀ (sid : Nat) (recs : List Record) (footer : List Nat) (N : Nat),
      (∀ x ∈ recs, WFRecord x) → N ≤ recs.length →
      (run N (mkReader sid (encodeSegment recs footer))).1 = recs.take N ∧
      (run N (mkReader sid (encodeSegment recs footer))).2.2.get_offset =
        sizeRecs (recs.take N)) ∧
    (∀ r : Reader, r.get_offset ≤ (Reader.next r).2.get_offset) := by
  constructor
  · intro sid recs footer N hwf hN
    have hsplit : encodeSegment recs footer =
        encodeRecs (recs.take N) ++
          (encodeRecs (recs.drop N) ++ (METADATA_HEADER_MAGIC ++ footer)) := by
      conv_lhs => rw [encodeSegment, ← List.take_append_drop N recs]
      rw [encodeRecs_append, List.append_assoc, List.append_assoc]
    have hdrop : (mkReader sid (encodeSegment recs footer)).inner.data.drop
        (mkReader sid (encodeSegment recs footer)).inner.pos =
        encodeRecs (recs.take N) ++
          (encodeRecs (recs.drop N) ++ (METADATA_HEADER_MAGIC ++ footer)) := by
      simp [mkReader, hsplit]
    have hwf2 : ∀ x ∈ recs.take N, WFRecord x :=
      fun x hx => hwf x (List.take_subset N recs hx)
    have hrc := run_chunk (m := 0) rfl (by simp [mkReader]) hdrop hwf2
    have hlen : (recs.take N).length = N := by
      rw [List.length_take]
      omega
    rw [hlen] at hrc
    simp only [Nat.add_zero] at hrc
    rw [hrc]
    simp [run, Reader.get_offset, mkReader]
  · intro r
    exact next_pos_mono r

/-- C7 (witness). The spec section 8 example after one decoded block: the
offset equals that block's encoded size 4 + 4 + 2 + 1 + 4 + 1 = 16; plus a
concrete monotonicity instance. -/
theorem offset_correctness_witness :
    (run 1 (mkReader 0 (encodeSegment [([97], [49], 43690), ([98, 98], [50, 50], 48059)] []))).1
      = [([97], [49], 43690)] ∧
    (run 1 (mkReader 0
        (encodeSegment [([97], [49], 43690), ([98, 98], [50, 50], 48059)] []))).2.2.get_offset
      = 16 ∧
    (mkReader 5 [1, 2, 3]).get_offset ≤ (Reader.next (mkReader 5 [1, 2, 3])).2.get_offset := by
  have h := offset_correctness.1 0 [([97], [49], 43690), ([98, 98], [50, 50], 48059)] [] 1
    (by decide) (by decide)
  exact ⟨h.1, h.2.trans (by decide), offset_correctness.2 (mkReader 5 [1, 2, 3])⟩

/-- C8 (confirmed). Any I/O failure whose kind is not end-of-file hit while
reading the checksum, key-length, or value-length field is returned to the
caller as an error, unmodified, for each of the three fields. -/
theorem hard_io_error_propagation :
    (∀ (r : Reader) (s1 : Stream) (e : IoError), r.is_terminated = false →
      readExact r.inner BLOB_HEADER_MAGIC.length = .ok (BLOB_HEADER_MAGIC, s1) →
      readU32be s1 = .error e → e ≠ .unexpectedEof →
      (Reader.next r).1 = some (.error (.ioErr e))) ∧
    (∀ (r : Reader) (s1 s2 : Stream) (c : Nat) (e : IoError), r.is_terminated = false →
      readExact r.inner BLOB_HEADER_MAGIC.length = .ok (BLOB_HEADER_MAGIC, s1) →
      readU32be s1 = .ok (c, s2) → readU16be s2 = .error e → e ≠ .unexpectedEof →
      (Reader.next r).1 = some (.error (.ioErr e))) ∧
    (∀ (r : Reader) (s1 s2 s3 s4 : Stream) (c kl : Nat) (key : List Nat) (e : IoError),
      r.is_terminated = false →
      readExact r.inner BLOB_HEADER_MAGIC.length = .ok (BLOB_HEADER_MAGIC, s1) →
      readU32be s1 = .ok (c, s2) → readU16be s2 = .ok (kl, s3) →
      readExact s3 kl = .ok (key, s4) → readU32be s4 = .error e → e ≠ .unexpectedEof →
      (Reader.next r).1 = some (.error (.ioErr e))) := by
  have hne : (BLOB_HEADER_MAGIC = METADATA_HEADER_MAGIC) = False := eq_false (by decide)
  refine ⟨?_, ?_, ?_⟩
  · intro r s1 e ht hm h2 hee
    simp [Reader.next, ht, hm, h2, hee, hne]
  · intro r s1 s2 c e ht hm h2 h3 hee
    simp [Reader.next, ht, hm, h2, h3, hee, hne]
  · intro r s1 s2 s3 s4 c kl key e ht hm h2 h3 h4 h5 hee
    simp [Reader.next, ht, hm, h2, h3, h4, h5, hee, hne]

/-- C8 (witness). A storage device that fails with error code 7 right after
the readable bytes: the fault is surfaced unmodified when it strikes the
checksum read, the key-length read, and the value-length read. -/
theorem hard_io_error_propagation_witness :
    (Reader.next (⟨0, ⟨BLOB_HEADER_MAGIC, 0, some 7⟩, false⟩ : Reader)).1 =
      some (.error (.ioErr (.other 7))) ∧
    (Reader.next (⟨0, ⟨BLOB_HEADER_MAGIC ++ [0, 0, 0, 0], 0, some 7⟩, false⟩ : Reader)).1 =
      some (.error (.ioErr (.other 7))) ∧
    (Reader.next (⟨0, ⟨BLOB_HEADER_MAGIC ++ [0, 0, 0, 0, 0, 1, 97], 0, some 7⟩, false⟩ :
        Reader)).1 =
      some (.error (.ioErr (.other 7))) :=
  ⟨hard_io_error_propagation.1 _ ⟨BLOB_HEADER_MAGIC, 4, some 7⟩ (.other 7)
      rfl rfl rfl (by decide),
   hard_io_error_propagation.2.1 _ ⟨BLOB_HEADER_MAGIC ++ [0, 0, 0, 0], 4, some 7⟩
      ⟨BLOB_HEADER_MAGIC ++ [0, 0, 0, 0], 8, some 7⟩ 0 (.other 7)
      rfl rfl rfl rfl (by decide),
   hard_io_error_propagation.2.2 _
      ⟨BLOB_HEADER_MAGIC ++ [0, 0, 0, 0, 0, 1, 97], 4, some 7⟩
      ⟨BLOB_HEADER_MAGIC ++ [0, 0, 0, 0, 0, 1, 97], 8, some 7⟩
      ⟨BLOB_HEADER_MAGIC ++ [0, 0, 0, 0, 0, 1, 97], 10, some 7⟩
      ⟨BLOB_HEADER_MAGIC ++ [0, 0, 0, 0, 0, 1, 97], 11, some 7⟩
      0 1 [97] (.other 7) rfl rfl rfl rfl rfl rfl (by decide)⟩

/-- C9 (confirmed). The segment identifier does not influence decoding: over
the same underlying stream and termination flag, readers with any two
segment identifiers produce identical pull results, errors, exhaustion
points, final stream states, and cursor offsets for every number of pulls. -/
theorem segment_id_not_interpreted (a b : Nat) (s : Stream) (t : Bool) (n : Nat) :
    (run n ⟨a, s, t⟩).1 = (run n ⟨b, s, t⟩).1 ∧
    (run n ⟨a, s, t⟩).2.1 = (run n ⟨b, s, t⟩).2.1 ∧
    (run n ⟨a, s, t⟩).2.2.inner = (run n ⟨b, s, t⟩).2.2.inner ∧
    (run n ⟨a, s, t⟩).2.2.is_terminated = (run n ⟨b, s, t⟩).2.2.is_terminated ∧
    (run n ⟨a, s, t⟩).2.2.get_offset = (run n ⟨b, s, t⟩).2.2.get_offset := by
  obtain ⟨h1, h2, h3, h4⟩ := run_id_indep a b s t n
  exact ⟨h1, h2, h3, h4, by rw [Reader.get_offset, Reader.get_offset, h3]⟩

theorem run_tail_reduction (sid : Nat) (recs : List Record) (t : List Nat)
    (hwf : ∀ x ∈ recs, WFRecord x) :
    run (recs.length + 1) (mkReader sid (encodeRecs recs ++ t)) =
      (recs ++ (run 1 (⟨sid, ⟨encodeRecs recs ++ t, sizeRecs recs, none⟩, false⟩ : Reader)).1,
       (run 1 (⟨sid, ⟨encodeRecs recs ++ t, sizeRecs recs, none⟩, false⟩ : Reader)).2.1,
       (run 1 (⟨sid, ⟨encodeRecs recs ++ t, sizeRecs recs, none⟩, false⟩ : Reader)).2.2) := by
  have hdrop : (mkReader sid (encodeRecs recs ++ t)).inner.data.drop
      (mkReader sid (encodeRecs recs ++ t)).inner.pos = encodeRecs recs ++ t := by
    simp [mkReader]
  have h := run_chunk (m := 1) rfl (by simp [mkReader]) hdrop hwf
  simpa [mkReader] using h

theorem tail_reader_drop (sid : Nat) (recs : List Record) (t : List Nat) :
    (⟨sid, ⟨encodeRecs recs ++ t, sizeRecs recs, none⟩, false⟩ : Reader).inner.data.drop
      (⟨sid, ⟨encodeRecs recs ++ t, sizeRecs recs, none⟩, false⟩ : Reader).inner.pos = t := by
  simp only
  rw [List.drop_left' (encodeRecs_length recs)]

theorem tail_reader_pos (sid : Nat) (recs : List Record) (t : List Nat) :
    (⟨sid, ⟨encodeRecs recs ++ t, sizeRecs recs, none⟩, false⟩ : Reader).inner.pos ≤
    (⟨sid, ⟨encodeRecs recs ++ t, sizeRecs recs, none⟩, false⟩ : Reader).inner.data.length := by
  simp [encodeRecs_length]

/-- C2 (counterexample). A valid one-record file followed by a second record
block truncated inside its key bytes (key length 5 announced, 2 key bytes
present): the reader decodes the full first record but then yields an
`UnexpectedEof` error for the truncated tail instead of terminating
cleanly, contradicting the claim for truncation points inside key bytes. -/
theorem truncation_mid_key_counterexample :
    (run 2 (mkReader 0 (encodeRecord [97] [49] 0 ++
      (BLOB_HEADER_MAGIC ++ be32 0 ++ be16 5 ++ [97, 98])))).1 = [([97], [49], 0)] ∧
    (run 2 (mkReader 0 (encodeRecord [97] [49] 0 ++
      (BLOB_HEADER_MAGIC ++ be32 0 ++ be16 5 ++ [97, 98])))).2.1 =
      some (.ioErr .unexpectedEof) :=
  ⟨rfl, rfl⟩

/-- C2 (amended). Truncating a valid file strictly inside a record block
after its leading magic was fully written still decodes all fully-present
preceding records, but the outcome for the truncated tail depends on where
the cut falls: inside the fixed-width checksum, key-length, or value-length
fields the reader terminates cleanly with "no more items" and no error;
inside the variable-length key bytes or value bytes the reader returns an
`UnexpectedEof` I/O error after the preceding records. -/
theorem truncation_tolerance_amended :
    (∀ (sid : Nat) (recs : List Record) (t : List Nat),
      (∀ x ∈ recs, WFRecord x) → CleanTruncTail t →
      (run (recs.length + 1) (mkReader sid (encodeRecs recs ++ t))).1 = recs ∧
      (run (recs.length + 1) (mkReader sid (encodeRecs recs ++ t))).2.1 = none ∧
      (run (recs.length + 1) (mkReader sid (encodeRecs recs ++ t))).2.2.is_terminated
        = false) ∧
    (∀ (sid : Nat) (recs : List Record) (t : List Nat),
      (∀ x ∈ recs, WFRecord x) → TornTruncTail t →
      (run (recs.length + 1) (mkReader sid (encodeRecs recs ++ t))).1 = recs ∧
      (run (recs.length + 1) (mkReader sid (encodeRecs recs ++ t))).2.1 =
        some (.ioErr .unexpectedEof)) := by
  constructor
  · intro sid recs t hwf hclean
    rw [run_tail_reduction sid recs t hwf]
    rcases hclean with ⟨u, htu, hu⟩ | ⟨c, u, hc, htu, hu⟩ | ⟨c, k, u, hc, hk, htu, hu⟩
    · have hnext := next_clean_crc (u := u)
        (r := ⟨sid, ⟨encodeRecs recs ++ t, sizeRecs recs, none⟩, false⟩)
        rfl (tail_reader_pos sid recs t)
        rfl (by rw [tail_reader_drop sid recs t, htu]) hu
      simp [run, hnext]
    · have hnext := next_clean_keylen (u := u) (c := c)
        (r := ⟨sid, ⟨encodeRecs recs ++ t, sizeRecs recs, none⟩, false⟩)
        rfl (tail_reader_pos sid recs t)
        rfl (by rw [tail_reader_drop sid recs t, htu, List.append_assoc]) hc hu
      simp [run, hnext]
    · have hnext := next_clean_vallen (u := u) (c := c) (k := k)
        (r := ⟨sid, ⟨encodeRecs recs ++ t, sizeRecs recs, none⟩, false⟩)
        rfl (tail_reader_pos sid recs t)
        rfl (by rw [tail_reader_drop sid recs t, htu]; simp [List.append_assoc]) hc hk hu
      simp [run, hnext]
  · intro sid recs t hwf htorn
    rw [run_tail_reduction sid recs t hwf]
    rcases htorn with ⟨c, klen, u, hc, hklen, htu, hu⟩ | ⟨c, k, vlen, u, hc, hk, hvlen, htu, hu⟩
    · have hnext := next_torn_key (u := u) (c := c)
        (r := ⟨sid, ⟨encodeRecs recs ++ t, sizeRecs recs, none⟩, false⟩)
        rfl (tail_reader_pos sid recs t)
        rfl (by rw [tail_reader_drop sid recs t, htu]; simp [List.append_assoc]) hc hklen hu
      simp [run, hnext]
    · have hnext := next_torn_val (u := u) (c := c) (k := k)
        (r := ⟨sid, ⟨encodeRecs recs ++ t, sizeRecs recs, none⟩, false⟩)
        rfl (tail_reader_pos sid recs t)
        rfl (by rw [tail_reader_drop sid recs t, htu]; simp [List.append_assoc]) hc hk hvlen hu
      simp [run, hnext]

/-- C2 (witness). The amended claim evaluated on one preceding record
followed by, on the clean side, a tail cut inside the checksum field and, on
the torn side, a tail cut inside the key bytes. -/
theorem truncation_tolerance_amended_witness :
    ((run 2 (mkReader 0 (encodeRecs [([97], [49], 5)] ++ (BLOB_HEADER_MAGIC ++ [1, 2])))).1 =
        [([97], [49], 5)] ∧
      (run 2 (mkReader 0 (encodeRecs [([97], [49], 5)] ++ (BLOB_HEADER_MAGIC ++ [1, 2])))).2.1 =
        none ∧
      (run 2 (mkReader 0
          (encodeRecs [([97], [49], 5)] ++ (BLOB_HEADER_MAGIC ++ [1, 2])))).2.2.is_terminated =
        false) ∧
    ((run 2 (mkReader 0 (encodeRecs [([97], [49], 5)] ++
        (BLOB_HEADER_MAGIC ++ be32 9 ++ be16 3 ++ [97])))).1 = [([97], [49], 5)] ∧
      (run 2 (mkReader 0 (encodeRecs [([97], [49], 5)] ++
        (BLOB_HEADER_MAGIC ++ be32 9 ++ be16 3 ++ [97])))).2.1 =
        some (.ioErr .unexpectedEof)) := by
  constructor
  · have h := truncation_tolerance_amended.1 0 [([97], [49], 5)]
      (BLOB_HEADER_MAGIC ++ [1, 2]) (by decide)
      (Or.inl ⟨[1, 2], rfl, by decide⟩)
    simpa using h
  · have h := truncation_tolerance_amended.2 0 [([97], [49], 5)]
      (BLOB_HEADER_MAGIC ++ be32 9 ++ be16 3 ++ [97]) (by decide)
      (Or.inl ⟨9, 3, [97], by decide, by decide, by simp [List.append_assoc], by decide⟩)
    simpa using h

end ValueLog
